import Mathlib

/-!
Verification of `Caching_Service.py`: a bounded in-memory cache (`CacheService`)
layered over a durable key-value store (`DatabaseService`), with LRU eviction.

Modelling conventions (shallow embedding of the Python source):

* Python `dict` objects (insertion-ordered, update-in-place on existing keys)
  are modelled as association lists `List (String × β)` with `ainsert`
  (assignment `d[k] = v`), `aerase` (`del d[k]`), `alookup` (`d.get(k)`), and
  `keys` (iteration order of the dict's keys).
* `time.time()` is modelled as a strictly monotone logical clock: the field
  `now` of the cache state is the next timestamp and is incremented each time
  the source reads the clock.  Timestamps are therefore pairwise distinct, as
  the source assumes of its float timestamps.
* A raised storage exception is modelled as a `Bool` fault flag paired with
  the state at the moment the exception propagates (Python mutations performed
  before the raise persist).  `CacheService.add`, `.remove` and `.removeAll`
  re-raise (`except ...: raise`), so they return `state × Bool`;
  `CacheService.get` catches every exception and returns `None`
  (`except ...: return None`), so it returns `state × Option`.
* The injected `database_service` collaborator is duck-typed in Python; it is
  modelled by the record of operations `Store`.  `dbStore` is the concrete
  `DatabaseService` of the source (whose in-memory dict operations never
  fail); `failSaveStore` is a backing store whose `save` raises a storage
  fault, as the spec's error taxonomy allows for a failing storage medium.
-/

/-- `Entity` class of the source: unique string `id`, opaque payload `data`. -/
structure Entity (α : Type) where
  id : String
  data : α
  deriving DecidableEq, Repr

/-- Keys of an association list, in dict iteration (insertion) order. -/
def keys {β : Type} (l : List (String × β)) : List String :=
  l.map Prod.fst

/-- Python `d.get(k)`: first value bound to `k`, if any. -/
def alookup {β : Type} : List (String × β) → String → Option β
  | [], _ => none
  | (k2, v) :: t, k => if k2 = k then some v else alookup t k

/-- Python `d[k] = v`: update in place if `k` is present (keeping its
position), otherwise append the new binding. -/
def ainsert {β : Type} : List (String × β) → String → β → List (String × β)
  | [], k, v => [(k, v)]
  | (k2, v2) :: t, k, v => if k2 = k then (k, v) :: t else (k2, v2) :: ainsert t k v

/-- Python `del d[k]`: drop the binding of `k` (the first, and in a dict the
only, occurrence); identity if `k` is absent. -/
def aerase {β : Type} : List (String × β) → String → List (String × β)
  | [], _ => []
  | (k2, v2) :: t, k => if k2 = k then t else (k2, v2) :: aerase t k

/-- Effect of `ainsert` on the key list alone. -/
def insKey : List String → String → List String
  | [], k => [k]
  | k2 :: t, k => if k2 = k then k2 :: t else k2 :: insKey t k

/-- Effect of `aerase` on the key list alone. -/
def eraseKey : List String → String → List String
  | [], _ => []
  | k2 :: t, k => if k2 = k then t else k2 :: eraseKey t k

/-- Python `min(d, key=d.get)` over the tail, carrying the best key/value so
far: a later key replaces the current best only when its value is strictly
smaller, so the first key attaining the minimum wins. -/
def minKeyAux : String → Nat → List (String × Nat) → String
  | bk, _, [] => bk
  | bk, bv, (k, v) :: t => if v < bv then minKeyAux k v t else minKeyAux bk bv t

/-- Python `min(d, key=d.get)` guarded by emptiness: `none` on an empty dict. -/
def minKey? : List (String × Nat) → Option String
  | [] => none
  | (k, v) :: t => some (minKeyAux k v t)

/-- `DatabaseService` class of the source: a dict from id to `Entity`. -/
structure DatabaseService (α : Type) where
  database : List (String × Entity α)
  deriving DecidableEq, Repr

/-- `DatabaseService.save`: upsert by id (`self.database[entity.get_id()] = entity`);
the dict assignment cannot fail, so no fault. -/
def DatabaseService.save {α : Type} (db : DatabaseService α) (e : Entity α) :
    DatabaseService α :=
  ⟨ainsert db.database e.id e⟩

/-- `DatabaseService.remove`: delete by id if present, no-op otherwise. -/
def DatabaseService.remove {α : Type} (db : DatabaseService α) (e : Entity α) :
    DatabaseService α :=
  ⟨aerase db.database e.id⟩

/-- `DatabaseService.clear`: delete all entries. -/
def DatabaseService.clear {α : Type} (_ : DatabaseService α) : DatabaseService α :=
  ⟨[]⟩

/-- `DatabaseService.get`: lookup by id, `None` on miss (it catches its own
errors and returns `None`, so it has no fault channel). -/
def DatabaseService.get {α : Type} (db : DatabaseService α) (i : String) :
    Option (Entity α) :=
  alookup db.database i

/-- The duck-typed backing-store collaborator injected into `CacheService`.
Each mutating operation returns the store state at the moment the call
returns or raises, plus a fault flag (`true` = raised a storage exception,
which the cache code observes as a propagating exception). -/
structure Store (σ α : Type) where
  save : σ → Entity α → σ × Bool
  remove : σ → Entity α → σ × Bool
  clear : σ → σ × Bool
  get : σ → String → Option (Entity α)

/-- The concrete `DatabaseService` of the source as a `Store`: its in-memory
dict operations never raise, so every fault flag is `false`. -/
def dbStore {α : Type} : Store (DatabaseService α) α :=
  { save := fun db e => (db.save e, false)
    remove := fun db e => (db.remove e, false)
    clear := fun db => (db.clear, false)
    get := fun db i => db.get i }

/-- Modelled from the spec: a `DatabaseService` whose underlying medium fails
on `save` (spec section 7, "Storage fault: the Backing Store's underlying
medium fails on save").  `save` raises, leaving the store unchanged; the
other operations behave as in the healthy `DatabaseService`. -/
def failSaveStore {α : Type} : Store (DatabaseService α) α :=
  { save := fun db _ => (db, true)
    remove := fun db e => (db.remove e, false)
    clear := fun db => (db.clear, false)
    get := fun db i => db.get i }

/-- `CacheService` state: `max_size`, the `cache` and `access_timestamps`
dicts, the injected `database_service` state, and the logical clock `now`
standing for `time.time()`. -/
structure CacheService (σ α : Type) where
  max_size : Nat
  cache : List (String × Entity α)
  access_timestamps : List (String × Nat)
  database_service : σ
  now : Nat
  deriving DecidableEq, Repr

/-- `CacheService._evict`: if `access_timestamps` is empty, return; otherwise
pick the id with minimal timestamp, and if it is in `cache`, delete it from
both dicts and then save it to the database (a save fault propagates after
the deletions have happened). -/
def CacheService.evict {σ α : Type} (S : Store σ α) (st : CacheService σ α) :
    CacheService σ α × Bool :=
  match minKey? st.access_timestamps with
  | none => (st, false)
  | some oldest_id =>
    match alookup st.cache oldest_id with
    | none => (st, false)
    | some oldest_entity =>
      ({ st with
          cache := aerase st.cache oldest_id
          access_timestamps := aerase st.access_timestamps oldest_id
          database_service := (S.save st.database_service oldest_entity).1 },
       (S.save st.database_service oldest_entity).2)

/-- `CacheService.add`: if the id is already cached, only refresh its
timestamp; otherwise evict first when `len(cache) >= max_size`, then insert
and stamp.  An eviction-time fault is re-raised (`except ...: raise`) with
the eviction's mutations kept and the insert not performed. -/
def CacheService.add {σ α : Type} (S : Store σ α) (e : Entity α)
    (st : CacheService σ α) : CacheService σ α × Bool :=
  match alookup st.cache e.id with
  | some _ =>
    ({ st with
        access_timestamps := ainsert st.access_timestamps e.id st.now
        now := st.now + 1 }, false)
  | none =>
    match (if st.max_size ≤ st.cache.length then CacheService.evict S st
           else (st, false)) with
    | (st1, true) => (st1, true)
    | (st1, false) =>
      ({ st1 with
          cache := ainsert st1.cache e.id e
          access_timestamps := ainsert st1.access_timestamps e.id st1.now
          now := st1.now + 1 }, false)

/-- Cache-tier half of `CacheService.remove`: delete the id from `cache`
(and, if present there, from `access_timestamps`) when it is cached. -/
def removeCacheTier {σ α : Type} (e : Entity α) (st : CacheService σ α) :
    CacheService σ α :=
  match alookup st.cache e.id with
  | some _ =>
    { st with
        cache := aerase st.cache e.id
        access_timestamps :=
          match alookup st.access_timestamps e.id with
          | some _ => aerase st.access_timestamps e.id
          | none => st.access_timestamps }
  | none => st

/-- `CacheService.remove`: delete from the cache tier, then always ask the
database to remove; a database fault is re-raised with the cache-tier
deletions kept. -/
def CacheService.remove {σ α : Type} (S : Store σ α) (e : Entity α)
    (st : CacheService σ α) : CacheService σ α × Bool :=
  ({ removeCacheTier e st with
      database_service := (S.remove (removeCacheTier e st).database_service e).1 },
   (S.remove (removeCacheTier e st).database_service e).2)

/-- `CacheService.removeAll`: clear both cache dicts, then clear the
database; a database fault is re-raised with the cache already cleared. -/
def CacheService.removeAll {σ α : Type} (S : Store σ α)
    (st : CacheService σ α) : CacheService σ α × Bool :=
  ({ st with
      cache := []
      access_timestamps := []
      database_service := (S.clear st.database_service).1 },
   (S.clear st.database_service).2)

/-- `CacheService.get`: cache hit refreshes the timestamp and returns the
resident entity; on miss, a store hit is promoted through `add` and then
stamped; a store miss returns `None`.  Every exception inside (in
particular an eviction-time save fault raised out of `add`) is caught and
reported as `None`, with the mutations made so far kept. -/
def CacheService.get {σ α : Type} (S : Store σ α) (e : Entity α)
    (st : CacheService σ α) : CacheService σ α × Option (Entity α) :=
  match alookup st.cache e.id with
  | some cached_entity =>
    ({ st with
        access_timestamps := ainsert st.access_timestamps e.id st.now
        now := st.now + 1 }, some cached_entity)
  | none =>
    match S.get st.database_service e.id with
    | some cached_entity =>
      match CacheService.add S cached_entity st with
      | (st1, true) => (st1, none)
      | (st1, false) =>
        ({ st1 with
            access_timestamps := ainsert st1.access_timestamps e.id st1.now
            now := st1.now + 1 }, some cached_entity)
    | none => (st, none)

/-- `CacheService.clear`: clear only the two cache dicts; the database is
untouched (nothing in the body can raise). -/
def CacheService.clear {σ α : Type} (st : CacheService σ α) : CacheService σ α :=
  { st with cache := [], access_timestamps := [] }

/-- Freshly constructed `CacheService(max_size, DatabaseService())` state,
before the constructor's positivity guard. -/
def initSt {α : Type} (m : Nat) : CacheService (DatabaseService α) α :=
  { max_size := m
    cache := []
    access_timestamps := []
    database_service := ⟨[]⟩
    now := 0 }

/-- `CacheService.__init__` with a fresh `DatabaseService`: raises a
configuration error (`none`) unless `max_size` is positive. -/
def CacheService.init {α : Type} (m : Nat) :
    Option (CacheService (DatabaseService α) α) :=
  if m = 0 then none else some (initSt m)

/-- One public cache operation, for stating properties of operation
sequences. -/
inductive Op (α : Type) where
  | add (e : Entity α)
  | get (e : Entity α)
  | remove (e : Entity α)
  | removeAll
  | clear
  deriving DecidableEq, Repr

/-- Run one public operation against the concrete `DatabaseService` store
(whose operations never fault) and keep the resulting state. -/
def runOp {α : Type} (st : CacheService (DatabaseService α) α) :
    Op α → CacheService (DatabaseService α) α
  | .add e => (CacheService.add dbStore e st).1
  | .get e => (CacheService.get dbStore e st).1
  | .remove e => (CacheService.remove dbStore e st).1
  | .removeAll => (CacheService.removeAll dbStore st).1
  | .clear => CacheService.clear st

/-- Run a sequence of public operations left to right. -/
def runOps {α : Type} (st : CacheService (DatabaseService α) α)
    (ops : List (Op α)) : CacheService (DatabaseService α) α :=
  ops.foldl runOp st

/-- Well-keyed database: every stored pair binds an entity under its own id
(every pair the source ever inserts is `(e.get_id(), e)`). -/
def DBInv {α : Type} (db : DatabaseService α) : Prop :=
  ∀ p ∈ db.database, (p.2).id = p.1

/-- The invariant carried through every public operation on the concrete
store: positive capacity, cache/timestamp dicts in lockstep, capacity
respected, database well-keyed. -/
def SvcInv {α : Type} (st : CacheService (DatabaseService α) α) : Prop :=
  0 < st.max_size ∧
  keys st.cache = keys st.access_timestamps ∧
  st.cache.length ≤ st.max_size ∧
  DBInv st.database_service

/-- Test entity `e1` of the source's test. -/
def e1s : Entity String :=
  ⟨"1", "Data 1"⟩

/-- Test entity `e2` of the source's test. -/
def e2s : Entity String :=
  ⟨"2", "Data 2"⟩

/-- Test entity `e3` of the source's test. -/
def e3s : Entity String :=
  ⟨"3", "Data 3"⟩

/-- A size-1 cache holding only id "1", built by one `add` against a store
whose medium is failing (the first `add` performs no save, so it succeeds). -/
def stOne : CacheService (DatabaseService String) String :=
  (CacheService.add failSaveStore e1s (initSt 1)).1

/-- A size-1 cache holding id "2", with id "1" already durably stored, at the
point where the storage medium has started failing. -/
def stPromote : CacheService (DatabaseService String) String :=
  { max_size := 1
    cache := [("2", e2s)]
    access_timestamps := [("2", 0)]
    database_service := ⟨[("1", e1s)]⟩
    now := 1 }

/-- A size-2 cache holding id "1" with payload "A" (as after one `add`). -/
def stReAdd : CacheService (DatabaseService String) String :=
  { max_size := 2
    cache := [("1", ⟨"1", "A"⟩)]
    access_timestamps := [("1", 0)]
    database_service := ⟨[]⟩
    now := 1 }

/-- A size-2 cache holding id "2", with id "1" present only in the store. -/
def stStoreOnly : CacheService (DatabaseService String) String :=
  { max_size := 2
    cache := [("2", e2s)]
    access_timestamps := [("2", 0)]
    database_service := ⟨[("1", e1s)]⟩
    now := 1 }

/-! ### Association-list lemmas -/

theorem keys_nil {β : Type} : keys ([] : List (String × β)) = [] := rfl

theorem keys_cons {β : Type} (k : String) (v : β) (t : List (String × β)) :
    keys ((k, v) :: t) = k :: keys t := rfl

theorem length_keys {β : Type} (l : List (String × β)) :
    (keys l).length = l.length := by
  simp [keys]

theorem alookup_nil {β : Type} (k : String) :
    alookup ([] : List (String × β)) k = none := rfl

theorem alookup_cons {β : Type} (k2 k : String) (v : β) (t : List (String × β)) :
    alookup ((k2, v) :: t) k = if k2 = k then some v else alookup t k := rfl

theorem ainsert_nil {β : Type} (k : String) (v : β) :
    ainsert ([] : List (String × β)) k v = [(k, v)] := rfl

theorem ainsert_cons {β : Type} (k2 k : String) (v2 v : β) (t : List (String × β)) :
    ainsert ((k2, v2) :: t) k v =
      if k2 = k then (k, v) :: t else (k2, v2) :: ainsert t k v := rfl

theorem aerase_nil {β : Type} (k : String) :
    aerase ([] : List (String × β)) k = [] := rfl

theorem aerase_cons {β : Type} (k2 k : String) (v2 : β) (t : List (String × β)) :
    aerase ((k2, v2) :: t) k = if k2 = k then t else (k2, v2) :: aerase t k := rfl

theorem insKey_nil (k : String) : insKey [] k = [k] := rfl

theorem insKey_cons (k2 k : String) (t : List String) :
    insKey (k2 :: t) k = if k2 = k then k2 :: t else k2 :: insKey t k := rfl

theorem eraseKey_nil (k : String) : eraseKey [] k = [] := rfl

theorem eraseKey_cons (k2 k : String) (t : List String) :
    eraseKey (k2 :: t) k = if k2 = k then t else k2 :: eraseKey t k := rfl

theorem alookup_isSome_iff {β : Type} (l : List (String × β)) (k : String) :
    (alookup l k).isSome ↔ k ∈ keys l := by
  induction l with
  | nil => simp [alookup_nil, keys_nil]
  | cons p t ih =>
    obtain ⟨k2, v⟩ := p
    by_cases h : k2 = k
    · subst h
      simp [alookup_cons, keys_cons]
    · simp only [alookup_cons, if_neg h, keys_cons, List.mem_cons, ih]
      constructor
      · exact fun hs => Or.inr hs
      · rintro (hk | hk)
        · exact absurd hk.symm h
        · exact hk

theorem mem_keys_of_alookup {β : Type} {l : List (String × β)} {k : String}
    {v : β} (h : alookup l k = some v) : k ∈ keys l := by
  rw [← alookup_isSome_iff, h]
  rfl

theorem alookup_eq_none_iff {β : Type} (l : List (String × β)) (k : String) :
    alookup l k = none ↔ k ∉ keys l := by
  rw [← alookup_isSome_iff]
  cases alookup l k <;> simp

theorem alookup_mem {β : Type} {l : List (String × β)} {k : String} {v : β}
    (h : alookup l k = some v) : (k, v) ∈ l := by
  induction l with
  | nil => simp [alookup_nil] at h
  | cons p t ih =>
    obtain ⟨k2, v2⟩ := p
    rw [alookup_cons] at h
    by_cases hk : k2 = k
    · subst hk
      rw [if_pos rfl] at h
      injection h with h2
      subst h2
      exact List.mem_cons_self _ _
    · rw [if_neg hk] at h
      exact List.mem_cons_of_mem _ (ih h)

theorem keys_ainsert {β : Type} (l : List (String × β)) (k : String) (v : β) :
    keys (ainsert l k v) = insKey (keys l) k := by
  induction l with
  | nil => rfl
  | cons p t ih =>
    obtain ⟨k2, v2⟩ := p
    by_cases h : k2 = k
    · subst h
      rw [ainsert_cons, if_pos rfl, keys_cons, keys_cons, insKey_cons, if_pos rfl]
    · rw [ainsert_cons, if_neg h, keys_cons, keys_cons, insKey_cons, if_neg h, ih]

theorem keys_aerase {β : Type} (l : List (String × β)) (k : String) :
    keys (aerase l k) = eraseKey (keys l) k := by
  induction l with
  | nil => rfl
  | cons p t ih =>
    obtain ⟨k2, v2⟩ := p
    by_cases h : k2 = k
    · rw [aerase_cons, if_pos h, keys_cons, eraseKey_cons, if_pos h]
    · rw [aerase_cons, if_neg h, keys_cons, keys_cons, eraseKey_cons, if_neg h, ih]

theorem insKey_of_mem {ks : List String} {k : String} (h : k ∈ ks) :
    insKey ks k = ks := by
  induction ks with
  | nil => cases h
  | cons k2 t ih =>
    by_cases hk : k2 = k
    · rw [insKey_cons, if_pos hk]
    · rcases List.mem_cons.mp h with h1 | h1
      · exact absurd h1.symm hk
      · rw [insKey_cons, if_neg hk, ih h1]

theorem insKey_of_not_mem {ks : List String} {k : String} (h : k ∉ ks) :
    insKey ks k = ks ++ [k] := by
  induction ks with
  | nil => rfl
  | cons k2 t ih =>
    have hk : ¬k2 = k := fun hh => h (hh ▸ List.mem_cons_self _ _)
    have ht : k ∉ t := fun hh => h (List.mem_cons_of_mem _ hh)
    rw [insKey_cons, if_neg hk, ih ht, List.cons_append]

theorem length_eraseKey_of_mem {ks : List String} {k : String} (h : k ∈ ks) :
    (eraseKey ks k).length + 1 = ks.length := by
  induction ks with
  | nil => cases h
  | cons k2 t ih =>
    by_cases hk : k2 = k
    · rw [eraseKey_cons, if_pos hk, List.length_cons]
    · rcases List.mem_cons.mp h with h1 | h1
      · exact absurd h1.symm hk
      · rw [eraseKey_cons, if_neg hk, List.length_cons, List.length_cons, ih h1]

theorem length_eraseKey_le (ks : List String) (k : String) :
    (eraseKey ks k).length ≤ ks.length := by
  induction ks with
  | nil => simp [eraseKey_nil]
  | cons k2 t ih =>
    by_cases hk : k2 = k
    · rw [eraseKey_cons, if_pos hk, List.length_cons]
      omega
    · rw [eraseKey_cons, if_neg hk, List.length_cons, List.length_cons]
      omega

theorem mem_of_mem_eraseKey {ks : List String} {k a : String}
    (h : a ∈ eraseKey ks k) : a ∈ ks := by
  induction ks with
  | nil => rw [eraseKey_nil] at h; cases h
  | cons k2 t ih =>
    by_cases hk : k2 = k
    · rw [eraseKey_cons, if_pos hk] at h
      exact List.mem_cons_of_mem _ h
    · rw [eraseKey_cons, if_neg hk, List.mem_cons] at h
      rcases h with h1 | h1
      · rw [h1]
        exact List.mem_cons_self _ _
      · exact List.mem_cons_of_mem _ (ih h1)

theorem not_mem_eraseKey {ks : List String} {k a : String} (h : a ∉ ks) :
    a ∉ eraseKey ks k :=
  fun hh => h (mem_of_mem_eraseKey hh)

theorem alookup_ainsert_self {β : Type} (l : List (String × β)) (k : String)
    (v : β) : alookup (ainsert l k v) k = some v := by
  induction l with
  | nil => rw [ainsert_nil, alookup_cons, if_pos rfl]
  | cons p t ih =>
    obtain ⟨k2, v2⟩ := p
    by_cases h : k2 = k
    · rw [ainsert_cons, if_pos h, alookup_cons, if_pos rfl]
    · rw [ainsert_cons, if_neg h, alookup_cons, if_neg h, ih]

theorem alookup_ainsert_ne {β : Type} (l : List (String × β)) {k k2 : String}
    (v : β) (h : k2 ≠ k) : alookup (ainsert l k v) k2 = alookup l k2 := by
  induction l with
  | nil => rw [ainsert_nil, alookup_cons, if_neg (Ne.symm h), alookup_nil]
  | cons p t ih =>
    obtain ⟨k3, v3⟩ := p
    by_cases h3 : k3 = k
    · rw [ainsert_cons, if_pos h3, alookup_cons, alookup_cons,
        if_neg (Ne.symm h), h3, if_neg (Ne.symm h)]
    · rw [ainsert_cons, if_neg h3, alookup_cons, alookup_cons]
      by_cases h32 : k3 = k2
      · rw [if_pos h32, if_pos h32]
      · rw [if_neg h32, if_neg h32, ih]

theorem alookup_aerase_ne {β : Type} (l : List (String × β)) {k k2 : String}
    (h : k2 ≠ k) : alookup (aerase l k) k2 = alookup l k2 := by
  induction l with
  | nil => rw [aerase_nil]
  | cons p t ih =>
    obtain ⟨k3, v3⟩ := p
    by_cases h3 : k3 = k
    · rw [aerase_cons, if_pos h3, alookup_cons, h3, if_neg (Ne.symm h)]
    · rw [aerase_cons, if_neg h3, alookup_cons, alookup_cons]
      by_cases h32 : k3 = k2
      · rw [if_pos h32, if_pos h32]
      · rw [if_neg h32, if_neg h32, ih]

theorem alookup_aerase_self {β : Type} {l : List (String × β)} {k : String}
    (hnd : (keys l).Nodup) : alookup (aerase l k) k = none := by
  induction l with
  | nil => rw [aerase_nil, alookup_nil]
  | cons p t ih =>
    obtain ⟨k2, v2⟩ := p
    rw [keys_cons, List.nodup_cons] at hnd
    by_cases h : k2 = k
    · rw [aerase_cons, if_pos h, alookup_eq_none_iff]
      rw [← h]
      exact hnd.1
    · rw [aerase_cons, if_neg h, alookup_cons, if_neg h, ih hnd.2]

theorem aerase_of_not_mem {β : Type} {l : List (String × β)} {k : String}
    (h : k ∉ keys l) : aerase l k = l := by
  induction l with
  | nil => rfl
  | cons p t ih =>
    obtain ⟨k2, v2⟩ := p
    rw [keys_cons, List.mem_cons] at h
    push_neg at h
    rw [aerase_cons, if_neg (Ne.symm h.1), ih h.2]

theorem mem_of_mem_aerase {β : Type} {l : List (String × β)} {k : String}
    {p : String × β} (h : p ∈ aerase l k) : p ∈ l := by
  induction l with
  | nil => rw [aerase_nil] at h; cases h
  | cons q t ih =>
    obtain ⟨k2, v2⟩ := q
    by_cases hk : k2 = k
    · rw [aerase_cons, if_pos hk] at h
      exact List.mem_cons_of_mem _ h
    · rw [aerase_cons, if_neg hk, List.mem_cons] at h
      rcases h with h1 | h1
      · rw [h1]
        exact List.mem_cons_self _ _
      · exact List.mem_cons_of_mem _ (ih h1)

theorem mem_ainsert_elim {β : Type} {l : List (String × β)} {k : String}
    {v : β} {p : String × β} (h : p ∈ ainsert l k v) : p = (k, v) ∨ p ∈ l := by
  induction l with
  | nil =>
    rw [ainsert_nil] at h
    rcases List.mem_cons.mp h with h1 | h1
    · exact Or.inl h1
    · cases h1
  | cons q t ih =>
    obtain ⟨k2, v2⟩ := q
    by_cases hk : k2 = k
    · rw [ainsert_cons, if_pos hk, List.mem_cons] at h
      rcases h with h1 | h1
      · exact Or.inl h1
      · exact Or.inr (List.mem_cons_of_mem _ h1)
    · rw [ainsert_cons, if_neg hk, List.mem_cons] at h
      rcases h with h1 | h1
      · rw [h1]
        exact Or.inr (List.mem_cons_self _ _)
      · rcases ih h1 with h2 | h2
        · exact Or.inl h2
        · exact Or.inr (List.mem_cons_of_mem _ h2)

theorem minKeyAux_cons (bk k : String) (bv v : Nat) (t : List (String × Nat)) :
    minKeyAux bk bv ((k, v) :: t) =
      if v < bv then minKeyAux k v t else minKeyAux bk bv t := rfl

theorem minKeyAux_mem (t : List (String × Nat)) (bk : String) (bv : Nat) :
    minKeyAux bk bv t = bk ∨ minKeyAux bk bv t ∈ keys t := by
  induction t generalizing bk bv with
  | nil => exact Or.inl rfl
  | cons p t ih =>
    obtain ⟨k, v⟩ := p
    rw [keys_cons]
    by_cases h : v < bv
    · rw [minKeyAux_cons, if_pos h]
      rcases ih k v with h1 | h1
      · rw [h1]
        exact Or.inr (List.mem_cons_self _ _)
      · exact Or.inr (List.mem_cons_of_mem _ h1)
    · rw [minKeyAux_cons, if_neg h]
      rcases ih bk bv with h1 | h1
      · exact Or.inl h1
      · exact Or.inr (List.mem_cons_of_mem _ h1)

theorem minKey?_mem {l : List (String × Nat)} {k : String}
    (h : minKey? l = some k) : k ∈ keys l := by
  cases l with
  | nil => cases h
  | cons p t =>
    obtain ⟨k2, v2⟩ := p
    rw [show minKey? ((k2, v2) :: t) = some (minKeyAux k2 v2 t) from rfl] at h
    injection h with h
    subst h
    rw [keys_cons]
    rcases minKeyAux_mem t k2 v2 with h1 | h1
    · rw [h1]
      exact List.mem_cons_self _ _
    · exact List.mem_cons_of_mem _ h1

theorem minKey?_isSome {l : List (String × Nat)} (h : l ≠ []) :
    ∃ k, minKey? l = some k := by
  cases l with
  | nil => exact absurd rfl h
  | cons p t =>
    obtain ⟨k2, v2⟩ := p
    exact ⟨minKeyAux k2 v2 t, rfl⟩

/-! ### Branch equations for the cache operations -/

theorem evict_eq_of {σ α : Type} (S : Store σ α) (st : CacheService σ α)
    {k : String} {eo : Entity α}
    (hk : minKey? st.access_timestamps = some k)
    (heo : alookup st.cache k = some eo) :
    CacheService.evict S st =
      ({ st with
          cache := aerase st.cache k
          access_timestamps := aerase st.access_timestamps k
          database_service := (S.save st.database_service eo).1 },
       (S.save st.database_service eo).2) := by
  unfold CacheService.evict
  rw [hk]
  simp only [heo]

theorem evict_candidates {σ α : Type} (st : CacheService σ α)
    (hlock : keys st.cache = keys st.access_timestamps)
    (hne : st.cache ≠ []) :
    ∃ k eo, minKey? st.access_timestamps = some k ∧
      alookup st.cache k = some eo ∧ k ∈ keys st.cache := by
  have hts : st.access_timestamps ≠ [] := by
    intro h0
    apply hne
    have h1 : (keys st.cache).length = 0 := by
      rw [hlock, h0, keys_nil]
      rfl
    rw [length_keys] at h1
    exact List.eq_nil_of_length_eq_zero h1
  obtain ⟨k, hk⟩ := minKey?_isSome hts
  have hmem : k ∈ keys st.cache := by
    rw [hlock]
    exact minKey?_mem hk
  have hsome : (alookup st.cache k).isSome := (alookup_isSome_iff _ _).mpr hmem
  obtain ⟨eo, heo⟩ := Option.isSome_iff_exists.mp hsome
  exact ⟨k, eo, hk, heo, hmem⟩

theorem add_eq_refresh {σ α : Type} (S : Store σ α) (e : Entity α)
    (st : CacheService σ α) {e0 : Entity α}
    (h : alookup st.cache e.id = some e0) :
    CacheService.add S e st =
      ({ st with
          access_timestamps := ainsert st.access_timestamps e.id st.now
          now := st.now + 1 }, false) := by
  unfold CacheService.add
  rw [h]

theorem add_eq_insert_nofull {σ α : Type} (S : Store σ α) (e : Entity α)
    (st : CacheService σ α)
    (hmiss : alookup st.cache e.id = none)
    (hlt : ¬st.max_size ≤ st.cache.length) :
    CacheService.add S e st =
      ({ st with
          cache := ainsert st.cache e.id e
          access_timestamps := ainsert st.access_timestamps e.id st.now
          now := st.now + 1 }, false) := by
  unfold CacheService.add
  rw [hmiss, if_neg hlt]

theorem add_eq_insert_full {σ α : Type} (S : Store σ α) (e : Entity α)
    (st : CacheService σ α) {k : String} {eo : Entity α}
    (hmiss : alookup st.cache e.id = none)
    (hfull : st.max_size ≤ st.cache.length)
    (hk : minKey? st.access_timestamps = some k)
    (heo : alookup st.cache k = some eo)
    (hsave : (S.save st.database_service eo).2 = false) :
    CacheService.add S e st =
      ({ st with
          cache := ainsert (aerase st.cache k) e.id e
          access_timestamps := ainsert (aerase st.access_timestamps k) e.id st.now
          database_service := (S.save st.database_service eo).1
          now := st.now + 1 }, false) := by
  unfold CacheService.add
  rw [hmiss, if_pos hfull, evict_eq_of S st hk heo, hsave]

theorem add_eq_insert_full_fault {σ α : Type} (S : Store σ α) (e : Entity α)
    (st : CacheService σ α) {k : String} {eo : Entity α}
    (hmiss : alookup st.cache e.id = none)
    (hfull : st.max_size ≤ st.cache.length)
    (hk : minKey? st.access_timestamps = some k)
    (heo : alookup st.cache k = some eo)
    (hsave : (S.save st.database_service eo).2 = true) :
    CacheService.add S e st =
      ({ st with
          cache := aerase st.cache k
          access_timestamps := aerase st.access_timestamps k
          database_service := (S.save st.database_service eo).1 }, true) := by
  unfold CacheService.add
  rw [hmiss, if_pos hfull, evict_eq_of S st hk heo, hsave]

theorem get_eq_hit {σ α : Type} (S : Store σ α) (e : Entity α)
    (st : CacheService σ α) {ce : Entity α}
    (h : alookup st.cache e.id = some ce) :
    CacheService.get S e st =
      ({ st with
          access_timestamps := ainsert st.access_timestamps e.id st.now
          now := st.now + 1 }, some ce) := by
  unfold CacheService.get
  rw [h]

theorem get_eq_total_miss {σ α : Type} (S : Store σ α) (e : Entity α)
    (st : CacheService σ α)
    (h1 : alookup st.cache e.id = none)
    (h2 : S.get st.database_service e.id = none) :
    CacheService.get S e st = (st, none) := by
  unfold CacheService.get
  rw [h1, h2]

theorem get_eq_promote_ok {σ α : Type} (S : Store σ α) (e : Entity α)
    (st : CacheService σ α) {ce : Entity α} {st1 : CacheService σ α}
    (h1 : alookup st.cache e.id = none)
    (h2 : S.get st.database_service e.id = some ce)
    (hadd : CacheService.add S ce st = (st1, false)) :
    CacheService.get S e st =
      ({ st1 with
          access_timestamps := ainsert st1.access_timestamps e.id st1.now
          now := st1.now + 1 }, some ce) := by
  unfold CacheService.get
  rw [h1, h2]
  simp only [hadd]

theorem get_eq_promote_fault {σ α : Type} (S : Store σ α) (e : Entity α)
    (st : CacheService σ α) {ce : Entity α} {st1 : CacheService σ α}
    (h1 : alookup st.cache e.id = none)
    (h2 : S.get st.database_service e.id = some ce)
    (hadd : CacheService.add S ce st = (st1, true)) :
    CacheService.get S e st = (st1, none) := by
  unfold CacheService.get
  rw [h1, h2]
  simp only [hadd]

theorem remove_dbStore_eq_mem {α : Type} (e : Entity α)
    (st : CacheService (DatabaseService α) α) {e0 : Entity α} {t0 : Nat}
    (h : alookup st.cache e.id = some e0)
    (ht : alookup st.access_timestamps e.id = some t0) :
    CacheService.remove dbStore e st =
      ({ st with
          cache := aerase st.cache e.id
          access_timestamps := aerase st.access_timestamps e.id
          database_service := ⟨aerase st.database_service.database e.id⟩ }, false) := by
  unfold CacheService.remove removeCacheTier
  rw [h, ht]
  rfl

theorem remove_dbStore_eq_notmem {α : Type} (e : Entity α)
    (st : CacheService (DatabaseService α) α)
    (h : alookup st.cache e.id = none) :
    CacheService.remove dbStore e st =
      ({ st with
          database_service := ⟨aerase st.database_service.database e.id⟩ }, false) := by
  unfold CacheService.remove removeCacheTier
  rw [h]
  rfl

theorem removeAll_dbStore_eq {α : Type} (st : CacheService (DatabaseService α) α) :
    CacheService.removeAll dbStore st =
      ({ st with
          cache := []
          access_timestamps := []
          database_service := ⟨[]⟩ }, false) := rfl

theorem clear_eq {σ α : Type} (st : CacheService σ α) :
    CacheService.clear st = { st with cache := [], access_timestamps := [] } := rfl

theorem evict_eq_noTs {σ α : Type} (S : Store σ α) (st : CacheService σ α)
    (hk : minKey? st.access_timestamps = none) :
    CacheService.evict S st = (st, false) := by
  unfold CacheService.evict
  rw [hk]

theorem evict_eq_noEntity {σ α : Type} (S : Store σ α) (st : CacheService σ α)
    {k : String} (hk : minKey? st.access_timestamps = some k)
    (he : alookup st.cache k = none) :
    CacheService.evict S st = (st, false) := by
  unfold CacheService.evict
  rw [hk]
  simp only [he]

theorem evict_dbStore_snd {α : Type} (st : CacheService (DatabaseService α) α) :
    (CacheService.evict dbStore st).2 = false := by
  cases hk : minKey? st.access_timestamps with
  | none => rw [evict_eq_noTs dbStore st hk]
  | some k =>
    cases he : alookup st.cache k with
    | none => rw [evict_eq_noEntity dbStore st hk he]
    | some eo =>
      rw [evict_eq_of dbStore st hk he]
      rfl

theorem add_dbStore_snd {α : Type} (e : Entity α)
    (st : CacheService (DatabaseService α) α) :
    (CacheService.add dbStore e st).2 = false := by
  unfold CacheService.add
  cases alookup st.cache e.id with
  | some e0 => rfl
  | none =>
    by_cases hfull : st.max_size ≤ st.cache.length
    · rw [if_pos hfull]
      cases hev : CacheService.evict dbStore st with
      | mk st1 b =>
        have h2 := evict_dbStore_snd st
        rw [hev] at h2
        have h3 : b = false := h2
        subst h3
        rfl
    · rw [if_neg hfull]

/-! ### Length and database-invariant lemmas -/

theorem length_ainsert_not_mem {β : Type} {l : List (String × β)} {k : String}
    (v : β) (h : k ∉ keys l) : (ainsert l k v).length = l.length + 1 := by
  rw [← length_keys, keys_ainsert, insKey_of_not_mem h, List.length_append,
    length_keys]
  rfl

theorem length_ainsert_mem {β : Type} {l : List (String × β)} {k : String}
    (v : β) (h : k ∈ keys l) : (ainsert l k v).length = l.length := by
  rw [← length_keys, keys_ainsert, insKey_of_mem h, length_keys]

theorem length_aerase_mem {β : Type} {l : List (String × β)} {k : String}
    (h : k ∈ keys l) : (aerase l k).length + 1 = l.length := by
  rw [← length_keys, keys_aerase, length_eraseKey_of_mem h, length_keys]

theorem length_aerase_le {β : Type} (l : List (String × β)) (k : String) :
    (aerase l k).length ≤ l.length := by
  rw [← length_keys, keys_aerase, ← length_keys l]
  exact length_eraseKey_le _ _

theorem DBInv_save {α : Type} {db : DatabaseService α} (h : DBInv db)
    (e : Entity α) : DBInv (db.save e) := by
  intro p hp
  simp only [DatabaseService.save] at hp
  rcases mem_ainsert_elim hp with h1 | h1
  · rw [h1]
  · exact h p h1

theorem DBInv_remove {α : Type} {db : DatabaseService α} (h : DBInv db)
    (e : Entity α) : DBInv (db.remove e) := by
  intro p hp
  simp only [DatabaseService.remove] at hp
  exact h p (mem_of_mem_aerase hp)

theorem DBInv_get {α : Type} {db : DatabaseService α} (h : DBInv db)
    {i : String} {ce : Entity α} (hce : db.get i = some ce) : ce.id = i := by
  simp only [DatabaseService.get] at hce
  exact h (i, ce) (alookup_mem hce)

/-! ### Invariant preservation along every public operation -/

theorem add_inv {α : Type} (e : Entity α)
    (st : CacheService (DatabaseService α) α) (h : SvcInv st) :
    SvcInv (CacheService.add dbStore e st).1 := by
  obtain ⟨hpos, hlock, hlen, hdb⟩ := h
  cases hres : alookup st.cache e.id with
  | some e0 =>
    rw [add_eq_refresh dbStore e st hres]
    refine ⟨hpos, ?_, hlen, hdb⟩
    rw [keys_ainsert, insKey_of_mem]
    · exact hlock
    · rw [← hlock]
      exact mem_keys_of_alookup hres
  | none =>
    have hnotmem : e.id ∉ keys st.cache := (alookup_eq_none_iff _ _).mp hres
    by_cases hfull : st.max_size ≤ st.cache.length
    · have hne : st.cache ≠ [] := by
        intro h0
        rw [h0] at hfull
        simp only [List.length_nil] at hfull
        omega
      obtain ⟨k, eo, hk, heo, hmem⟩ := evict_candidates st hlock hne
      have hsave : ((dbStore (α := α)).save st.database_service eo).2 = false := rfl
      rw [add_eq_insert_full dbStore e st hres hfull hk heo hsave]
      have hmem_ts : k ∈ keys st.access_timestamps := by
        rw [← hlock]
        exact hmem
      refine ⟨hpos, ?_, ?_, ?_⟩
      · rw [keys_ainsert, keys_ainsert, keys_aerase, keys_aerase, hlock]
      · show (ainsert (aerase st.cache k) e.id e).length ≤ st.max_size
        have h1 : e.id ∉ keys (aerase st.cache k) := by
          rw [keys_aerase]
          exact not_mem_eraseKey hnotmem
        rw [length_ainsert_not_mem e h1]
        have h2 := length_aerase_mem (l := st.cache) hmem
        omega
      · exact DBInv_save hdb eo
    · rw [add_eq_insert_nofull dbStore e st hres hfull]
      refine ⟨hpos, ?_, ?_, hdb⟩
      · rw [keys_ainsert, keys_ainsert, hlock]
      · show (ainsert st.cache e.id e).length ≤ st.max_size
        rw [length_ainsert_not_mem e hnotmem]
        omega

theorem add_lookup_self {α : Type} (e : Entity α)
    (st : CacheService (DatabaseService α) α) (h : SvcInv st) :
    ((alookup (CacheService.add dbStore e st).1.cache e.id)).isSome := by
  obtain ⟨hpos, hlock, hlen, hdb⟩ := h
  cases hres : alookup st.cache e.id with
  | some e0 =>
    rw [add_eq_refresh dbStore e st hres]
    rw [show ({ st with
        access_timestamps := ainsert st.access_timestamps e.id st.now
        now := st.now + 1 } : CacheService (DatabaseService α) α).cache = st.cache
      from rfl, hres]
    rfl
  | none =>
    by_cases hfull : st.max_size ≤ st.cache.length
    · have hne : st.cache ≠ [] := by
        intro h0
        rw [h0] at hfull
        simp only [List.length_nil] at hfull
        omega
      obtain ⟨k, eo, hk, heo, hmem⟩ := evict_candidates st hlock hne
      have hsave : ((dbStore (α := α)).save st.database_service eo).2 = false := rfl
      rw [add_eq_insert_full dbStore e st hres hfull hk heo hsave]
      rw [show ({ st with
          cache := ainsert (aerase st.cache k) e.id e
          access_timestamps := ainsert (aerase st.access_timestamps k) e.id st.now
          database_service := ((dbStore (α := α)).save st.database_service eo).1
          now := st.now + 1 } : CacheService (DatabaseService α) α).cache =
        ainsert (aerase st.cache k) e.id e from rfl]
      rw [alookup_ainsert_self]
      rfl
    · rw [add_eq_insert_nofull dbStore e st hres hfull]
      rw [show ({ st with
          cache := ainsert st.cache e.id e
          access_timestamps := ainsert st.access_timestamps e.id st.now
          now := st.now + 1 } : CacheService (DatabaseService α) α).cache =
        ainsert st.cache e.id e from rfl]
      rw [alookup_ainsert_self]
      rfl

theorem get_inv {α : Type} (e : Entity α)
    (st : CacheService (DatabaseService α) α) (h : SvcInv st) :
    SvcInv (CacheService.get dbStore e st).1 := by
  obtain ⟨hpos, hlock, hlen, hdb⟩ := h
  cases hres : alookup st.cache e.id with
  | some ce =>
    rw [get_eq_hit dbStore e st hres]
    refine ⟨hpos, ?_, hlen, hdb⟩
    rw [keys_ainsert, insKey_of_mem]
    · exact hlock
    · rw [← hlock]
      exact mem_keys_of_alookup hres
  | none =>
    cases hdbget : (dbStore (α := α)).get st.database_service e.id with
    | none =>
      rw [get_eq_total_miss dbStore e st hres hdbget]
      exact ⟨hpos, hlock, hlen, hdb⟩
    | some ce =>
      have hid : ce.id = e.id := DBInv_get hdb hdbget
      have hsnd := add_dbStore_snd ce st
      have hadd : CacheService.add dbStore ce st =
          ((CacheService.add dbStore ce st).1, false) := by
        rw [← hsnd]
      rw [get_eq_promote_ok dbStore e st hres hdbget hadd]
      have hinv1 : SvcInv (CacheService.add dbStore ce st).1 :=
        add_inv ce st ⟨hpos, hlock, hlen, hdb⟩
      obtain ⟨hpos1, hlock1, hlen1, hdb1⟩ := hinv1
      refine ⟨hpos1, ?_, hlen1, hdb1⟩
      have hself := add_lookup_self ce st ⟨hpos, hlock, hlen, hdb⟩
      have hmem1 : e.id ∈ keys (CacheService.add dbStore ce st).1.access_timestamps := by
        rw [← hlock1, ← hid]
        exact (alookup_isSome_iff _ _).mp hself
      rw [keys_ainsert, insKey_of_mem hmem1]
      exact hlock1

theorem remove_inv {α : Type} (e : Entity α)
    (st : CacheService (DatabaseService α) α) (h : SvcInv st) :
    SvcInv (CacheService.remove dbStore e st).1 := by
  obtain ⟨hpos, hlock, hlen, hdb⟩ := h
  cases hres : alookup st.cache e.id with
  | some e0 =>
    have hmem : e.id ∈ keys st.access_timestamps := by
      rw [← hlock]
      exact mem_keys_of_alookup hres
    obtain ⟨t0, ht0⟩ :=
      Option.isSome_iff_exists.mp ((alookup_isSome_iff _ _).mpr hmem)
    rw [remove_dbStore_eq_mem e st hres ht0]
    refine ⟨hpos, ?_, ?_, ?_⟩
    · rw [keys_aerase, keys_aerase, hlock]
    · calc (aerase st.cache e.id).length ≤ st.cache.length :=
            length_aerase_le _ _
        _ ≤ st.max_size := hlen
    · intro p hp
      exact hdb p (mem_of_mem_aerase hp)
  | none =>
    rw [remove_dbStore_eq_notmem e st hres]
    refine ⟨hpos, hlock, hlen, ?_⟩
    intro p hp
    exact hdb p (mem_of_mem_aerase hp)

theorem removeAll_inv {α : Type} (st : CacheService (DatabaseService α) α)
    (h : SvcInv st) : SvcInv (CacheService.removeAll dbStore st).1 := by
  obtain ⟨hpos, _, _, _⟩ := h
  rw [removeAll_dbStore_eq]
  refine ⟨hpos, rfl, ?_, ?_⟩
  · simp only [List.length_nil]
    omega
  · intro p hp
    cases hp

theorem clear_inv {α : Type} (st : CacheService (DatabaseService α) α)
    (h : SvcInv st) : SvcInv (CacheService.clear st) := by
  obtain ⟨hpos, _, _, hdb⟩ := h
  rw [clear_eq]
  refine ⟨hpos, rfl, ?_, hdb⟩
  simp only [List.length_nil]
  omega

theorem runOp_inv {α : Type} (st : CacheService (DatabaseService α) α)
    (op : Op α) (h : SvcInv st) : SvcInv (runOp st op) := by
  cases op with
  | add e => exact add_inv e st h
  | get e => exact get_inv e st h
  | remove e => exact remove_inv e st h
  | removeAll => exact removeAll_inv st h
  | clear => exact clear_inv st h

theorem runOps_inv {α : Type} (st : CacheService (DatabaseService α) α)
    (ops : List (Op α)) (h : SvcInv st) : SvcInv (runOps st ops) := by
  induction ops generalizing st with
  | nil => exact h
  | cons op t ih => exact ih (runOp st op) (runOp_inv st op h)

theorem init_inv {α : Type} {m : Nat}
    {st : CacheService (DatabaseService α) α}
    (h : CacheService.init m = some st) : SvcInv st := by
  unfold CacheService.init at h
  by_cases hm : m = 0
  · rw [if_pos hm] at h
    cases h
  · rw [if_neg hm] at h
    injection h with h
    subst h
    refine ⟨?_, rfl, ?_, ?_⟩
    · show 0 < m
      omega
    · show ([] : List (String × Entity α)).length ≤ m
      simp
    · intro p hp
      cases hp

/-! ### Claims -/

/-- C1: capacity invariant — for every (necessarily fault-free, since the
concrete `DatabaseService` never faults) sequence of public operations run
from a freshly constructed cache with positive `max_size`, after each
operation the number of cache entries is at most `max_size`.  Universally
quantifying over the operation list covers "after each operation completes",
since every prefix is itself an operation list. -/
theorem capacity_invariant {α : Type} (m : Nat)
    (st0 : CacheService (DatabaseService α) α) (ops : List (Op α))
    (h : CacheService.init m = some st0) :
    (runOps st0 ops).cache.length ≤ (runOps st0 ops).max_size :=
  (runOps_inv st0 ops (init_inv h)).2.2.1

/-- C1 witness: the invariant at the source's own test scenario. -/
theorem capacity_invariant_witness :
    CacheService.init 2 = some (initSt (α := String) 2) ∧
    (runOps (initSt (α := String) 2) [Op.add e1s, Op.add e2s, Op.add e3s]).cache.length ≤
      (runOps (initSt (α := String) 2) [Op.add e1s, Op.add e2s, Op.add e3s]).max_size :=
  ⟨by decide, capacity_invariant 2 (initSt 2) [Op.add e1s, Op.add e2s, Op.add e3s] (by decide)⟩

/-- C2: lockstep invariant — after every completed public operation run from
a freshly constructed cache, the key set of `cache` (entries) equals the key
set of `access_timestamps` (lastAccess): an id is in one iff it is in the
other. -/
theorem lockstep_invariant {α : Type} (m : Nat)
    (st0 : CacheService (DatabaseService α) α) (ops : List (Op α)) (k : String)
    (h : CacheService.init m = some st0) :
    (k ∈ keys (runOps st0 ops).cache ↔
      k ∈ keys (runOps st0 ops).access_timestamps) := by
  rw [(runOps_inv st0 ops (init_inv h)).2.1]

/-- C2 witness: the lockstep invariant at the source's own test scenario. -/
theorem lockstep_invariant_witness :
    CacheService.init 2 = some (initSt (α := String) 2) ∧
    (("2") ∈ keys (runOps (initSt (α := String) 2)
        [Op.add e1s, Op.add e2s, Op.add e3s]).cache ↔
      ("2") ∈ keys (runOps (initSt (α := String) 2)
        [Op.add e1s, Op.add e2s, Op.add e3s]).access_timestamps) :=
  ⟨by decide,
   lockstep_invariant 2 (initSt 2) [Op.add e1s, Op.add e2s, Op.add e3s] ("2") (by decide)⟩

/-- C3: LRU eviction — with `max_size = 2`, adding entities with ids
"1", "2", "3" in order (no intervening reads) evicts exactly the entity with
id "1" (the minimal `lastAccess` timestamp) to the store: afterwards the
database holds exactly the id-"1" entity (so exactly one eviction happened,
and the store's `get` returns it), and the cache holds exactly ids
"2" and "3". -/
theorem lru_eviction {α : Type} (d1 d2 d3 : α) :
    keys (runOps (initSt 2)
        [Op.add ⟨"1", d1⟩, Op.add ⟨"2", d2⟩, Op.add ⟨"3", d3⟩]).cache = ["2", "3"] ∧
    (runOps (initSt 2)
        [Op.add ⟨"1", d1⟩, Op.add ⟨"2", d2⟩, Op.add ⟨"3", d3⟩]).database_service.database =
      [("1", ⟨"1", d1⟩)] ∧
    DatabaseService.get (runOps (initSt 2)
        [Op.add ⟨"1", d1⟩, Op.add ⟨"2", d2⟩, Op.add ⟨"3", d3⟩]).database_service ("1") =
      some ⟨"1", d1⟩ := by
  refine ⟨?_, ?_, ?_⟩ <;> rfl

/-- C4: refresh-not-overwrite on re-add — if `add(e)` finds `e.id` already
resident (bound to `e0`), the call only refreshes that id's `lastAccess`
timestamp to now (and bumps the clock) without touching `cache` or the
database and without fault, and a subsequent `get` still returns the
original payload `e0`. -/
theorem refresh_not_overwrite {σ α : Type} (S : Store σ α) (e e0 : Entity α)
    (st : CacheService σ α) (hres : alookup st.cache e.id = some e0) :
    CacheService.add S e st =
      ({ st with
          access_timestamps := ainsert st.access_timestamps e.id st.now
          now := st.now + 1 }, false) ∧
    (CacheService.get S e (CacheService.add S e st).1).2 = some e0 := by
  have h1 := add_eq_refresh S e st hres
  refine ⟨h1, ?_⟩
  rw [h1]
  show (CacheService.get S e { st with
      access_timestamps := ainsert st.access_timestamps e.id st.now
      now := st.now + 1 }).2 = some e0
  set st2 : CacheService σ α := { st with
      access_timestamps := ainsert st.access_timestamps e.id st.now
      now := st.now + 1 } with hst2
  have h2 : alookup st2.cache e.id = some e0 := hres
  rw [get_eq_hit S e st2 h2]

/-- C4 witness: re-adding id "1" with payload "B" while payload "A" is
resident leaves the cached payload "A" visible to the next `get`. -/
theorem refresh_not_overwrite_witness :
    alookup stReAdd.cache ("1") = some ⟨"1", "A"⟩ ∧
    (CacheService.get dbStore ⟨"1", "B"⟩
        (CacheService.add dbStore ⟨"1", "B"⟩ stReAdd).1).2 = some ⟨"1", "A"⟩ :=
  ⟨by decide,
   (refresh_not_overwrite dbStore ⟨"1", "B"⟩ ⟨"1", "A"⟩ stReAdd (by decide)).2⟩

/-- C5: promote-on-read — with `max_size = 1`, after `add` of id "1" and
`add` of id "2" (which evicts "1" to the store), a `get` for id "1" returns
a present entity equal to the stored copy, leaves id "1" resident in the
cache (promoted through the same insert-with-eviction path as `add`), and
"2" is evicted to the store in its place. -/
theorem promote_on_read {α : Type} (d1 d2 : α) :
    (CacheService.get dbStore ⟨"1", d1⟩
        (runOps (initSt 1) [Op.add ⟨"1", d1⟩, Op.add ⟨"2", d2⟩])).2 = some ⟨"1", d1⟩ ∧
    DatabaseService.get (runOps (initSt 1)
        [Op.add ⟨"1", d1⟩, Op.add ⟨"2", d2⟩]).database_service ("1") = some ⟨"1", d1⟩ ∧
    (CacheService.get dbStore ⟨"1", d1⟩
        (runOps (initSt 1) [Op.add ⟨"1", d1⟩, Op.add ⟨"2", d2⟩])).1.cache =
      [("1", ⟨"1", d1⟩)] ∧
    DatabaseService.get (CacheService.get dbStore ⟨"1", d1⟩
        (runOps (initSt 1) [Op.add ⟨"1", d1⟩, Op.add ⟨"2", d2⟩])).1.database_service ("2") =
      some ⟨"2", d2⟩ := by
  refine ⟨?_, ?_, ?_, ?_⟩ <;> rfl

/-- C6 counterexample: with the backing store's save medium failing, a `get`
for id "1" (store hit, cache full with id "2") triggers a promotion-time
eviction whose save faults, yet `get` completes normally and returns `none`
instead of propagating the fault — the eviction really ran (the cache was
emptied, nothing was inserted) and nothing was saved (the store is
unchanged).  This refutes the part of the claim asserting that an
eviction-time storage fault propagates out of the triggering `get`. -/
theorem eviction_fault_get_counterexample :
    (CacheService.get failSaveStore e1s stPromote).2 = none ∧
    (CacheService.get failSaveStore e1s stPromote).1.cache = [] ∧
    (CacheService.get failSaveStore e1s stPromote).1.database_service.database =
      [("1", e1s)] := by
  refine ⟨?_, ?_, ?_⟩ <;> decide

/-- C6 amended: an eviction-time save fault propagates to the caller when
the eviction is triggered by `add` (which re-raises); but when the eviction
is triggered by `get`'s store-hit promotion, `get` absorbs the fault and
returns absent instead of propagating it. -/
theorem eviction_fault_propagation {α : Type} :
    (∀ (e : Entity α) (st : CacheService (DatabaseService α) α),
      alookup st.cache e.id = none →
      st.max_size ≤ st.cache.length →
      keys st.cache = keys st.access_timestamps →
      st.cache ≠ [] →
      (CacheService.add failSaveStore e st).2 = true) ∧
    (∀ (e ce : Entity α) (st : CacheService (DatabaseService α) α),
      alookup st.cache e.id = none →
      alookup st.database_service.database e.id = some ce →
      ce.id = e.id →
      st.max_size ≤ st.cache.length →
      keys st.cache = keys st.access_timestamps →
      st.cache ≠ [] →
      (CacheService.get failSaveStore e st).2 = none) := by
  constructor
  · intro e st hmiss hfull hlock hne
    obtain ⟨k, eo, hk, heo, hmem⟩ := evict_candidates st hlock hne
    have hsave : ((failSaveStore (α := α)).save st.database_service eo).2 = true := rfl
    rw [add_eq_insert_full_fault failSaveStore e st hmiss hfull hk heo hsave]
  · intro e ce st hmiss hhit hid hfull hlock hne
    obtain ⟨k, eo, hk, heo, hmem⟩ := evict_candidates st hlock hne
    have hsave : ((failSaveStore (α := α)).save st.database_service eo).2 = true := rfl
    have hmiss2 : alookup st.cache ce.id = none := by
      rw [hid]
      exact hmiss
    have hadd := add_eq_insert_full_fault failSaveStore ce st hmiss2 hfull hk heo hsave
    have hdbget : (failSaveStore (α := α)).get st.database_service e.id = some ce := hhit
    rw [get_eq_promote_fault failSaveStore e st hmiss hdbget hadd]

/-- C6 witness: the amended behavior at the concrete failing-save states. -/
theorem eviction_fault_propagation_witness :
    (CacheService.add failSaveStore e2s stOne).2 = true ∧
    (CacheService.get failSaveStore e1s stPromote).2 = none :=
  ⟨(eviction_fault_propagation (α := String)).1 e2s stOne
      (by decide) (by decide) (by decide) (by decide),
   (eviction_fault_propagation (α := String)).2 e1s e1s stPromote
      (by decide) (by decide) (by decide) (by decide) (by decide) (by decide)⟩

/-- C7 counterexample: when the save during an `add`-triggered eviction
faults, the fault propagates, but the cache is left with 0 entries against
`max_size = 1` — strictly below the boundary, refuting "left temporarily
over or at the max_size boundary". -/
theorem failed_eviction_size_counterexample :
    (CacheService.add failSaveStore e2s stOne).2 = true ∧
    stOne.max_size = 1 ∧
    (CacheService.add failSaveStore e2s stOne).1.cache.length = 0 ∧
    ¬stOne.max_size ≤ (CacheService.add failSaveStore e2s stOne).1.cache.length := by
  refine ⟨?_, ?_, ?_, ?_⟩ <;> decide

/-- C7 amended: when the backing store's save faults during an eviction, the
fault propagates without any rollback — the evicted entry's removal from
`cache` and `access_timestamps` persists, nothing reaches the database, and
the triggering entity is not inserted — leaving the cache size at
`max_size - 1`, strictly below (not over or at) the boundary. -/
theorem failed_eviction_no_rollback {α : Type} (e : Entity α)
    (st : CacheService (DatabaseService α) α)
    (hmiss : alookup st.cache e.id = none)
    (hfull : st.cache.length = st.max_size)
    (hpos : 0 < st.max_size)
    (hlock : keys st.cache = keys st.access_timestamps) :
    (CacheService.add failSaveStore e st).2 = true ∧
    (CacheService.add failSaveStore e st).1.cache.length + 1 = st.max_size ∧
    (CacheService.add failSaveStore e st).1.database_service = st.database_service ∧
    alookup (CacheService.add failSaveStore e st).1.cache e.id = none := by
  have hne : st.cache ≠ [] := by
    intro h0
    rw [h0] at hfull
    simp only [List.length_nil] at hfull
    omega
  have hfull2 : st.max_size ≤ st.cache.length := by omega
  obtain ⟨k, eo, hk, heo, hmem⟩ := evict_candidates st hlock hne
  have hsave : ((failSaveStore (α := α)).save st.database_service eo).2 = true := rfl
  have hadd := add_eq_insert_full_fault failSaveStore e st hmiss hfull2 hk heo hsave
  refine ⟨?_, ?_, ?_, ?_⟩
  · rw [hadd]
  · rw [hadd]
    show (aerase st.cache k).length + 1 = st.max_size
    rw [length_aerase_mem hmem]
    omega
  · rw [hadd]
    rfl
  · rw [hadd]
    show alookup (aerase st.cache k) e.id = none
    rw [alookup_eq_none_iff, keys_aerase]
    exact not_mem_eraseKey ((alookup_eq_none_iff _ _).mp hmiss)

/-- C7 witness: the amended behaviour at the concrete failing-save state. -/
theorem failed_eviction_no_rollback_witness :
    alookup stOne.cache (e2s).id = none ∧
    (CacheService.add failSaveStore e2s stOne).2 = true ∧
    (CacheService.add failSaveStore e2s stOne).1.cache.length + 1 = stOne.max_size :=
  ⟨by decide,
   (failed_eviction_no_rollback e2s stOne (by decide) (by decide) (by decide)
      (by decide)).1,
   (failed_eviction_no_rollback e2s stOne (by decide) (by decide) (by decide)
      (by decide)).2.1⟩

/-- C8: `clear` empties `cache` and `access_timestamps` while leaving the
database state (and hence every store lookup, in particular for a previously
evicted entity) unchanged, whereas `removeAll` empties `cache`,
`access_timestamps`, and the database. -/
theorem clear_vs_removeAll {α : Type} (st : CacheService (DatabaseService α) α) :
    (CacheService.clear st).cache = [] ∧
    (CacheService.clear st).access_timestamps = [] ∧
    (CacheService.clear st).database_service = st.database_service ∧
    (∀ i, DatabaseService.get (CacheService.clear st).database_service i =
      DatabaseService.get st.database_service i) ∧
    (CacheService.removeAll dbStore st).1.cache = [] ∧
    (CacheService.removeAll dbStore st).1.access_timestamps = [] ∧
    (CacheService.removeAll dbStore st).1.database_service.database = [] :=
  ⟨rfl, rfl, rfl, fun _ => rfl, rfl, rfl, rfl⟩

/-- C9: remove semantics — `remove(e)` (against the never-faulting concrete
store) raises no fault, leaves `e.id` absent from `cache` and
`access_timestamps`, always performs the store-side deletion (the database
becomes its previous contents with `e.id` erased, so `e.id` is absent from
it — covering an id present only in the store), and is a complete no-op on
the cache tier when the id is not cached and on the store when the id is not
stored.  The duplicate-free-keys and lockstep hypotheses hold of every
reachable state (Python dicts cannot have duplicate keys). -/
theorem remove_semantics {α : Type} (e : Entity α)
    (st : CacheService (DatabaseService α) α)
    (hndC : (keys st.cache).Nodup)
    (hndD : (keys st.database_service.database).Nodup)
    (hlock : keys st.cache = keys st.access_timestamps) :
    (CacheService.remove dbStore e st).2 = false ∧
    alookup (CacheService.remove dbStore e st).1.cache e.id = none ∧
    alookup (CacheService.remove dbStore e st).1.access_timestamps e.id = none ∧
    (CacheService.remove dbStore e st).1.database_service.database =
      aerase st.database_service.database e.id ∧
    alookup (CacheService.remove dbStore e st).1.database_service.database e.id = none ∧
    (alookup st.cache e.id = none →
      (CacheService.remove dbStore e st).1.cache = st.cache ∧
      (CacheService.remove dbStore e st).1.access_timestamps = st.access_timestamps) ∧
    (alookup st.database_service.database e.id = none →
      (CacheService.remove dbStore e st).1.database_service = st.database_service) := by
  have hndT : (keys st.access_timestamps).Nodup := by
    rw [← hlock]
    exact hndC
  cases hres : alookup st.cache e.id with
  | some e0 =>
    have hmem : e.id ∈ keys st.access_timestamps := by
      rw [← hlock]
      exact mem_keys_of_alookup hres
    obtain ⟨t0, ht0⟩ :=
      Option.isSome_iff_exists.mp ((alookup_isSome_iff _ _).mpr hmem)
    have hrm := remove_dbStore_eq_mem e st hres ht0
    refine ⟨?_, ?_, ?_, ?_, ?_, ?_, ?_⟩
    · rw [hrm]
    · rw [hrm]
      show alookup (aerase st.cache e.id) e.id = none
      exact alookup_aerase_self hndC
    · rw [hrm]
      show alookup (aerase st.access_timestamps e.id) e.id = none
      exact alookup_aerase_self hndT
    · rw [hrm]
    · rw [hrm]
      show alookup (aerase st.database_service.database e.id) e.id = none
      exact alookup_aerase_self hndD
    · intro h0
      exact Option.noConfusion h0
    · intro h0
      rw [hrm]
      show DatabaseService.mk (aerase st.database_service.database e.id) =
        st.database_service
      rw [aerase_of_not_mem ((alookup_eq_none_iff _ _).mp h0)]
  | none =>
    have hrm := remove_dbStore_eq_notmem e st hres
    have hnomemT : e.id ∉ keys st.access_timestamps := by
      rw [← hlock]
      exact (alookup_eq_none_iff _ _).mp hres
    refine ⟨?_, ?_, ?_, ?_, ?_, ?_, ?_⟩
    · rw [hrm]
    · rw [hrm]
      show alookup st.cache e.id = none
      exact hres
    · rw [hrm]
      show alookup st.access_timestamps e.id = none
      exact (alookup_eq_none_iff _ _).mpr hnomemT
    · rw [hrm]
    · rw [hrm]
      show alookup (aerase st.database_service.database e.id) e.id = none
      exact alookup_aerase_self hndD
    · intro h0
      rw [hrm]
      exact ⟨rfl, rfl⟩
    · intro h0
      rw [hrm]
      show DatabaseService.mk (aerase st.database_service.database e.id) =
        st.database_service
      rw [aerase_of_not_mem ((alookup_eq_none_iff _ _).mp h0)]

/-- C9 witness: removing id "1", which is present only in the store, raises
no fault and deletes it from the store. -/
theorem remove_semantics_witness :
    alookup stStoreOnly.cache (e1s).id = none ∧
    (CacheService.remove dbStore e1s stStoreOnly).2 = false ∧
    alookup (CacheService.remove dbStore e1s stStoreOnly).1.database_service.database
      (e1s).id = none :=
  ⟨by decide,
   (remove_semantics e1s stStoreOnly (by decide) (by decide) (by decide)).1,
   (remove_semantics e1s stStoreOnly (by decide) (by decide) (by decide)).2.2.2.2.1⟩

/-- C10: promotion copies, never moves — when `get(e)` misses the cache but
hits the store (the stored entity carrying its own id, as every saved entity
does), the promotion leaves the store binding for `e.id` unchanged, returns
the stored entity, and makes it resident in the cache: the id ends up in
both tiers.  The hypotheses on well-keyed cache entries and lockstep hold of
every reachable state. -/
theorem promotion_copies {α : Type} (e ce : Entity α)
    (st : CacheService (DatabaseService α) α)
    (hmiss : alookup st.cache e.id = none)
    (hhit : alookup st.database_service.database e.id = some ce)
    (hid : ce.id = e.id)
    (hkeyed : ∀ p ∈ st.cache, (p.2).id = p.1)
    (hlock : keys st.cache = keys st.access_timestamps) :
    alookup (CacheService.get dbStore e st).1.database_service.database e.id = some ce ∧
    (CacheService.get dbStore e st).2 = some ce ∧
    alookup (CacheService.get dbStore e st).1.cache e.id = some ce := by
  have hdbget : (dbStore (α := α)).get st.database_service e.id = some ce := hhit
  have hadd : CacheService.add dbStore ce st =
      ((CacheService.add dbStore ce st).1, false) := by
    rw [← add_dbStore_snd ce st]
  have hprom := get_eq_promote_ok dbStore e st hmiss hdbget hadd
  have hmiss2 : alookup st.cache ce.id = none := by
    rw [hid]
    exact hmiss
  have hnomem : e.id ∉ keys st.cache := (alookup_eq_none_iff _ _).mp hmiss
  refine ⟨?_, ?_, ?_⟩
  · rw [hprom]
    show alookup (CacheService.add dbStore ce st).1.database_service.database e.id =
      some ce
    by_cases hfull : st.max_size ≤ st.cache.length
    · cases hcache : st.cache with
      | nil =>
        have hts : st.access_timestamps = [] := by
          have h1 : (keys st.access_timestamps).length = 0 := by
            rw [← hlock, hcache, keys_nil]
            rfl
          rw [length_keys] at h1
          exact List.eq_nil_of_length_eq_zero h1
        have hk : minKey? st.access_timestamps = none := by
          rw [hts]
          rfl
        have hev := evict_eq_noTs dbStore st hk
        have hdbeq : (CacheService.add dbStore ce st).1.database_service =
            st.database_service := by
          unfold CacheService.add
          rw [hmiss2, if_pos hfull, hev]
        rw [hdbeq, hhit]
      | cons p t =>
        obtain ⟨k, eo, hk, heo, hmem⟩ := evict_candidates st hlock (by
          rw [hcache]
          exact List.cons_ne_nil p t)
        have hsave : ((dbStore (α := α)).save st.database_service eo).2 = false := rfl
        have heq := add_eq_insert_full dbStore ce st hmiss2 hfull hk heo hsave
        have hdbeq : (CacheService.add dbStore ce st).1.database_service.database =
            ainsert st.database_service.database eo.id eo := by
          rw [heq]
          rfl
        rw [hdbeq]
        have hkid : eo.id = k := hkeyed (k, eo) (alookup_mem heo)
        have hne2 : e.id ≠ eo.id := by
          rw [hkid]
          intro h0
          exact hnomem (h0 ▸ hmem)
        rw [alookup_ainsert_ne _ _ hne2, hhit]
    · have heq := add_eq_insert_nofull dbStore ce st hmiss2 hfull
      have hdbeq : (CacheService.add dbStore ce st).1.database_service =
          st.database_service := by
        rw [heq]
      rw [hdbeq, hhit]
  · rw [hprom]
  · rw [hprom]
    show alookup (CacheService.add dbStore ce st).1.cache e.id = some ce
    by_cases hfull : st.max_size ≤ st.cache.length
    · cases hcache : st.cache with
      | nil =>
        have hts : st.access_timestamps = [] := by
          have h1 : (keys st.access_timestamps).length = 0 := by
            rw [← hlock, hcache, keys_nil]
            rfl
          rw [length_keys] at h1
          exact List.eq_nil_of_length_eq_zero h1
        have hk : minKey? st.access_timestamps = none := by
          rw [hts]
          rfl
        have hev := evict_eq_noTs dbStore st hk
        have hceq : (CacheService.add dbStore ce st).1.cache =
            ainsert st.cache ce.id ce := by
          unfold CacheService.add
          rw [hmiss2, if_pos hfull, hev]
        rw [hceq, ← hid, alookup_ainsert_self]
      | cons p t =>
        obtain ⟨k, eo, hk, heo, hmem⟩ := evict_candidates st hlock (by
          rw [hcache]
          exact List.cons_ne_nil p t)
        have hsave : ((dbStore (α := α)).save st.database_service eo).2 = false := rfl
        have heq := add_eq_insert_full dbStore ce st hmiss2 hfull hk heo hsave
        have hceq : (CacheService.add dbStore ce st).1.cache =
            ainsert (aerase st.cache k) ce.id ce := by
          rw [heq]
        rw [hceq, ← hid, alookup_ainsert_self]
    · have heq := add_eq_insert_nofull dbStore ce st hmiss2 hfull
      have hceq : (CacheService.add dbStore ce st).1.cache =
          ainsert st.cache ce.id ce := by
        rw [heq]
      rw [hceq, ← hid, alookup_ainsert_self]

/-- C10 witness: a store-only id "1" is promoted by `get` and afterwards
resident in both the cache and the store. -/
theorem promotion_copies_witness :
    alookup stStoreOnly.cache (e1s).id = none ∧
    alookup (CacheService.get dbStore e1s stStoreOnly).1.database_service.database
      (e1s).id = some e1s ∧
    alookup (CacheService.get dbStore e1s stStoreOnly).1.cache (e1s).id = some e1s :=
  ⟨by decide,
   (promotion_copies e1s e1s stStoreOnly (by decide) (by decide) (by decide)
      (by decide) (by decide)).1,
   (promotion_copies e1s e1s stStoreOnly (by decide) (by decide) (by decide)
      (by decide) (by decide)).2.2⟩
